import Mathlib

/-!
# Upload orchestrator of `static/script.js`

A shallow embedding of the browser script that takes a batch of audio
files, sends each new file to `/transcribe`, forwards the transcript to
`/generate-notes` and appends the rendered notes to the page.

Modelling choices:

* The two module-level variables (`isProcessing`, `uploadedFiles`) and the
  three DOM nodes the script writes to (`#file-info`, `#generated-notes`,
  `#loading-spinner`) are the fields of `State`.  The nodes are assumed to
  exist in the page.
* What the script does to the outside world (`alert`, `console.error`,
  `fetch`) is returned as a list of `Event`s in program order.
* The answer of the network to a `fetch` is an input: every file of a batch
  comes with the answer `/transcribe` gives when that file is sent and the
  answer `/generate-notes` gives when its transcript is sent (`Upload`).
  Each file is sent at most once per call of `handleFiles`, so this covers
  every behaviour of the two services.
* An `async` function is run to completion; an exception that escapes it
  (a rejected promise) is the completion `thrown`, with the state and the
  events produced up to the throw.
* `marked`, the markdown renderer, comes from a library outside the
  repository and is a parameter: a total function from strings to strings.
-/

namespace Notes

/-! ## JavaScript values -/

/-- A JavaScript value as `response.json()` can produce it, plus `undefined`.
A number is kept as a rational: only whether it is zero is ever looked at. -/
inductive JSVal where
  | undefined : JSVal
  | null : JSVal
  | bool (b : Bool) : JSVal
  | number (x : ℚ) : JSVal
  | string (s : String) : JSVal
  | array (items : List JSVal) : JSVal
  | object (fields : List (String × JSVal)) : JSVal

namespace JSVal

/-- JavaScript truthiness (`ToBoolean`), as used by `if (transcription)`. -/
def truthy : JSVal → Bool
  | undefined => false
  | null => false
  | bool b => b
  | number x => decide (x ≠ 0)
  | string s => decide (s ≠ "")
  | array _ => true
  | object _ => true

/-- Reading `data.key` for a key that no built-in prototype defines
(`transcription`, `notes`): `none` is the `TypeError` of reading a property
of `null` or `undefined`; a missing property reads as `undefined`. -/
def getProp (key : String) : JSVal → Option JSVal
  | undefined => none
  | null => none
  | object fields => some ((fields.lookup key).getD undefined)
  | _ => some undefined

/-- Is the value a string: the only values on which `.trim()` can be called. -/
def isString : JSVal → Bool
  | string _ => true
  | _ => false

end JSVal

/-! ## Files, network answers, events -/

/-- A `File` as far as the script looks at it: `file.name` and `file.size`. -/
structure FileRecord where
  name : String
  size : Nat

/-- How a `fetch` followed by `response.json()` can end. -/
inductive FetchResult where
  /-- The promise returned by `fetch` rejects (network failure). -/
  | rejected : FetchResult
  /-- A response arrives: `response.ok`, and the parsed body, `none` when
  the body is not JSON (`response.json()` rejects). -/
  | response (ok : Bool) (json : Option JSVal) : FetchResult

/-- One file of a batch with the answers of the two services for it. -/
structure Upload where
  file : FileRecord
  transcribeReply : FetchResult
  notesReply : FetchResult

/-- What the script does to the outside world. -/
inductive Event where
  | alert (message : String) : Event
  | consoleError (label : String) : Event
  /-- A `fetch` of `/transcribe` with the file as form field `file`, and the
  answer it got. -/
  | transcribeCall (file : FileRecord) (reply : FetchResult) : Event
  /-- A `fetch` of `/generate-notes` with body `{ transcription }`, and the
  answer it got. -/
  | notesCall (transcription : JSVal) (reply : FetchResult) : Event

/-- Is the event one of the two remote calls. -/
def Event.isRemoteCall : Event → Bool
  | Event.transcribeCall _ _ => true
  | Event.notesCall _ _ => true
  | _ => false

/-- A child of `#generated-notes`: the `div` built by `displayNotes`. -/
structure Block where
  classes : List String
  innerHTML : String

/-- The module-level variables and the DOM nodes the script writes to. -/
structure State where
  isProcessing : Bool
  /-- The `Set` `uploadedFiles`, in insertion order. -/
  uploadedFiles : List String
  /-- The `innerHTML` of `#file-info`. -/
  chatWindow : String
  /-- The children of `#generated-notes`. -/
  generatedNotes : List Block
  /-- The `style.display` of `#loading-spinner`. -/
  spinner : String

/-- How a function call ends: it returns, or an exception escapes. -/
inductive Completion where
  | normal : Completion
  | thrown : Completion
  deriving DecidableEq

/-- The result of running a piece of the script: the state it leaves, the
events it produced, and how it ended. -/
structure Outcome where
  state : State
  events : List Event
  completion : Completion

/-! ## The script -/

/-- The constant `MAX_FILE_SIZE_MB = 200`. -/
def MAX_FILE_SIZE_MB : ℚ := 200

/-- The method `Set.prototype.add`. -/
def setAdd (s : List String) (x : String) : List String :=
  if x ∈ s then s else s ++ [x]

/-- The test `file.size / (1024 * 1024) > MAX_FILE_SIZE_MB`.  The division
is exact in double precision (a division by a power of two), so it is the
division of rationals. -/
def exceedsSizeLimit (file : FileRecord) : Bool :=
  decide ((file.size : ℚ) / (1024 * 1024) > MAX_FILE_SIZE_MB)

/-- Two decimal digits. -/
def twoDigits (n : Nat) : String :=
  toString (n / 10 % 10) ++ toString (n % 10)

/-- The text of `(size / 1024).toFixed(2)`: `size / 1024` is exact in double precision,
and `toFixed(2)` takes the integer `n` with `n / 100` nearest to it, the
larger one on a tie. -/
def sizeKB (size : Nat) : String :=
  let n := (size * 100 + 512) / 1024
  toString (n / 100) ++ "." ++ twoDigits n

/-- The function `displayFileMessage(file)`. -/
def displayFileMessage (s : State) (file : FileRecord) : State :=
  { s with chatWindow := "<p>" ++ file.name ++ " (" ++ sizeKB file.size ++ " KB) uploaded.</p>" }

/-- The function `showSpinner()`. -/
def showSpinner (s : State) : State := { s with spinner := "inline-block" }

/-- The function `hideSpinner()`. -/
def hideSpinner (s : State) : State := { s with spinner := "none" }

/-- The `try` block of a remote call after `fetch`: the value returned, or
`none` when the block throws (`fetch` rejects, `!response.ok`, the body is
not JSON, or `data` is `null`). -/
def fetchField (key : String) : FetchResult → Option JSVal
  | FetchResult.rejected => none
  | FetchResult.response false _ => none
  | FetchResult.response true none => none
  | FetchResult.response true (some data) => data.getProp key

/-- The function `transcribeAudio(file)`: the value returned (`undefined` after the
`catch`), the state after the `finally`, and the events. -/
def transcribeAudio (s : State) (file : FileRecord) (reply : FetchResult) :
    JSVal × State × List Event :=
  let s1 := showSpinner s
  match fetchField "transcription" reply with
  | some v => (v, hideSpinner s1, [Event.transcribeCall file reply])
  | none =>
    (JSVal.undefined, hideSpinner s1,
      [Event.transcribeCall file reply, Event.consoleError "Transcription Error:",
        Event.alert "Error during transcription."])

/-- The function `generateNotes(transcription)`: the value returned (`undefined` after
the `catch`) and the events. -/
def generateNotes (transcription : JSVal) (reply : FetchResult) : JSVal × List Event :=
  match fetchField "notes" reply with
  | some v => (v, [Event.notesCall transcription reply])
  | none =>
    (JSVal.undefined,
      [Event.notesCall transcription reply, Event.consoleError "Notes Generation Error:",
        Event.alert "Error generating notes."])

/-- JavaScript white space and line terminators, what `trim` removes. -/
def isJSWhiteSpace (c : Char) : Bool :=
  c.val ∈ [0x9, 0xA, 0xB, 0xC, 0xD, 0x20, 0xA0, 0x1680, 0x2028, 0x2029, 0x202F, 0x205F,
    0x3000, 0xFEFF] || (0x2000 ≤ c.val && c.val ≤ 0x200A)

/-- The method `String.prototype.trim`. -/
def jsTrim (s : String) : String :=
  String.mk ((s.toList.dropWhile isJSWhiteSpace).reverse.dropWhile isJSWhiteSpace).reverse

/-- The `div` that `displayNotes` builds for a notes string. -/
def notesBlock (marked : String → String) (notes : String) : Block :=
  { classes := ["message", "alert", "alert-success", "fade-in"]
    innerHTML := "<strong>Generated Notes:</strong><br>" ++ marked (jsTrim notes) }

/-- The function `displayNotes(notes)`: `none` is the `TypeError` of `notes.trim()` on a
value that is not a string; the `div` is not attached then, so nothing has
changed.  (The scroll position is not modelled.) -/
def displayNotes (marked : String → String) (s : State) : JSVal → Option State
  | JSVal.string notes => some { s with generatedNotes := s.generatedNotes ++ [notesBlock marked notes] }
  | _ => none

/-- The body of the `for (const file of files)` loop. -/
def loopBody (marked : String → String) (s : State) (u : Upload) : Outcome :=
  if u.file.name ∈ s.uploadedFiles then
    ⟨s, [Event.alert (u.file.name ++ " already processed.")], Completion.normal⟩
  else
    let s1 := { s with uploadedFiles := setAdd s.uploadedFiles u.file.name }
    if exceedsSizeLimit u.file then
      ⟨s1, [Event.alert (u.file.name ++ " exceeds the size limit.")], Completion.normal⟩
    else
      let s2 := displayFileMessage s1 u.file
      let r := transcribeAudio s2 u.file u.transcribeReply
      if r.1.truthy then
        let n := generateNotes r.1 u.notesReply
        match displayNotes marked r.2.1 n.1 with
        | some s4 => ⟨s4, r.2.2 ++ n.2, Completion.normal⟩
        | none => ⟨r.2.1, r.2.2 ++ n.2, Completion.thrown⟩
      else
        ⟨r.2.1, r.2.2, Completion.normal⟩

/-- The `for ... of` loop: the bodies in order, left at the first exception. -/
def forOf (marked : String → String) (s : State) : List Upload → Outcome
  | [] => ⟨s, [], Completion.normal⟩
  | u :: rest =>
    let r := loopBody marked s u
    match r.completion with
    | Completion.thrown => r
    | Completion.normal =>
      let r2 := forOf marked r.state rest
      ⟨r2.state, r.events ++ r2.events, r2.completion⟩

/-- The function `handleFiles(files)`: the guard, the loop, and the flag cleared
after the loop (not reached when an exception escapes the loop). -/
def handleFiles (marked : String → String) (s : State) (files : List Upload) : Outcome :=
  if s.isProcessing then ⟨s, [], Completion.normal⟩
  else
    let r := forOf marked { s with isProcessing := true } files
    match r.completion with
    | Completion.thrown => r
    | Completion.normal => ⟨{ r.state with isProcessing := false }, r.events, Completion.normal⟩

/-! ## Vocabulary of the properties -/

/-- The value `transcribeAudio` returns for a file: the `transcription`
property of the answer, `undefined` after a failure. -/
def transcriptOf (u : Upload) : JSVal :=
  (fetchField "transcription" u.transcribeReply).getD JSVal.undefined

/-- The value `generateNotes` returns for a file: the `notes` property of the
answer, `undefined` after a failure. -/
def notesOf (u : Upload) : JSVal :=
  (fetchField "notes" u.notesReply).getD JSVal.undefined

/-- The remote calls of the pipeline of one file: the transcribe call, then
the generate-notes call with the transcript when the transcript is truthy. -/
def callsOf (u : Upload) : List Event :=
  Event.transcribeCall u.file u.transcribeReply ::
    (if (transcriptOf u).truthy then [Event.notesCall (transcriptOf u) u.notesReply] else [])

/-- The remote calls among some events. -/
def remoteCalls (events : List Event) : List Event := events.filter Event.isRemoteCall

/-- The file is within the size limit, its transcript is truthy and note
generation yields no string: the case in which `notes.trim()` throws. -/
def pipelineThrows (u : Upload) : Prop :=
  exceedsSizeLimit u.file = false ∧ (transcriptOf u).truthy = true ∧ (notesOf u).isString = false

/-- The file is within the size limit, its transcript is truthy and note
generation yields a string: both remote calls are made and give a result. -/
def completesBoth (u : Upload) : Prop :=
  exceedsSizeLimit u.file = false ∧ (transcriptOf u).truthy = true ∧ (notesOf u).isString = true

instance (u : Upload) : Decidable (pipelineThrows u) := by
  unfold pipelineThrows; infer_instance

instance (u : Upload) : Decidable (completesBoth u) := by
  unfold completesBoth; infer_instance

/-- The block rendered from a value returned by `generateNotes`, if any. -/
def blockOf (marked : String → String) : JSVal → List Block
  | JSVal.string notes => [notesBlock marked notes]
  | _ => []

/-- The block a generate-notes call leads to: one when its answer yields a
notes string, none otherwise and none for any other event. -/
def blocksOfEvent (marked : String → String) : Event → List Block
  | Event.notesCall _ reply => blockOf marked ((fetchField "notes" reply).getD JSVal.undefined)
  | _ => []

/-- The files of a batch whose name is new when the loop comes to them,
given the names recorded before the batch. -/
def firstSubmissions (seen : List String) : List Upload → List Upload
  | [] => []
  | u :: rest =>
    (if u.file.name ∈ seen then [] else [u]) ++ firstSubmissions (setAdd seen u.file.name) rest

/-- The names of the files sent to the transcription service, in order. -/
def transcribedNames : List Event → List String
  | [] => []
  | Event.transcribeCall file _ :: rest => file.name :: transcribedNames rest
  | _ :: rest => transcribedNames rest

/-- The event is a generate-notes call whose answer yields a notes string:
the second remote call of a pipeline, completed with a result. -/
def Event.yieldsNotes : Event → Bool
  | Event.notesCall _ reply => ((fetchField "notes" reply).getD JSVal.undefined).isString
  | _ => false

/-! ## Example inputs -/

/-- A success answer whose JSON body has one string field. -/
def okJson (key value : String) : FetchResult :=
  FetchResult.response true (some (JSVal.object [(key, JSVal.string value)]))

/-- An answer with HTTP status 500. -/
def http500 : FetchResult := FetchResult.response false none

/-- The page right after loading. -/
def freshPage : State :=
  { isProcessing := false, uploadedFiles := [], chatWindow := "", generatedNotes := [],
    spinner := "none" }

/-- A new file of 50 MiB for which both services answer with success. -/
def fileA : Upload :=
  { file := { name := "fileA.mp3", size := 52428800 }
    transcribeReply := okJson "transcription" "good morning"
    notesReply := okJson "notes" "# Morning" }

/-- A file of 250 MiB. -/
def fileB : Upload :=
  { file := { name := "fileB.wav", size := 262144000 }
    transcribeReply := okJson "transcription" "too long"
    notesReply := okJson "notes" "# Long" }

/-- A small file that is transcribed as "hello" and for which the
note-generation endpoint answers with HTTP 500. -/
def fileC : Upload :=
  { file := { name := "fileC.mp3", size := 1024 }
    transcribeReply := okJson "transcription" "hello"
    notesReply := http500 }

/-- A small file for which the transcription endpoint answers with HTTP 500. -/
def fileD : Upload :=
  { file := { name := "fileD.mp3", size := 2048 }
    transcribeReply := http500
    notesReply := okJson "notes" "# Never asked for" }

/-- A file of exactly 200 MiB. -/
def fileE : Upload :=
  { file := { name := "fileE.mp3", size := 209715200 }
    transcribeReply := http500
    notesReply := http500 }

/-- A file of 250 MiB that has the name of `fileD`. -/
def fileDBig : Upload :=
  { file := { name := "fileD.mp3", size := 262144000 }
    transcribeReply := okJson "transcription" "too long"
    notesReply := okJson "notes" "# Long" }

/-- The page while the batch `[fileA, fileD]` is being processed: the loop
body has run for `fileA` and the answer for `fileD` is awaited. -/
def midBatch : State :=
  (loopBody id { freshPage with isProcessing := true } fileA).state

/-! ## The size test -/

theorem exceedsSizeLimit_iff (file : FileRecord) :
    exceedsSizeLimit file = true ↔ 209715200 < file.size := by
  unfold exceedsSizeLimit MAX_FILE_SIZE_MB
  rw [decide_eq_true_iff, gt_iff_lt, lt_div_iff₀ (by norm_num)]
  constructor
  · intro h
    have h2 : ((209715200 : ℕ) : ℚ) < (file.size : ℚ) := by
      push_cast; linarith
    exact_mod_cast h2
  · intro h
    have h2 : ((209715200 : ℕ) : ℚ) < (file.size : ℚ) := by exact_mod_cast h
    push_cast at h2; linarith

theorem exceedsSizeLimit_eq_false_iff (file : FileRecord) :
    exceedsSizeLimit file = false ↔ file.size ≤ 209715200 := by
  rw [← Bool.not_eq_true, exceedsSizeLimit_iff]; omega

theorem exceedsSizeLimit_eq (file : FileRecord) :
    exceedsSizeLimit file = decide (209715200 < file.size) := by
  rw [Bool.eq_iff_iff, exceedsSizeLimit_iff]; simp

/-! ## One iteration of the loop -/

theorem mem_setAdd (s : List String) (x y : String) : y ∈ setAdd s x ↔ y ∈ s ∨ y = x := by
  unfold setAdd
  split
  · constructor
    · exact Or.inl
    · rintro (h | rfl)
      · exact h
      · assumption
  · simp

theorem setAdd_of_not_mem (s : List String) (x : String) (h : x ∉ s) : setAdd s x = s ++ [x] := by
  simp [setAdd, h]

theorem transcribeAudio_fst (s : State) (u : Upload) :
    (transcribeAudio s u.file u.transcribeReply).1 = transcriptOf u := by
  unfold transcribeAudio transcriptOf
  cases fetchField "transcription" u.transcribeReply <;> rfl

theorem transcribeAudio_events (s : State) (u : Upload) :
    remoteCalls (transcribeAudio s u.file u.transcribeReply).2.2
      = [Event.transcribeCall u.file u.transcribeReply] := by
  unfold transcribeAudio
  cases fetchField "transcription" u.transcribeReply <;> rfl

theorem transcribeAudio_state (s : State) (u : Upload) :
    (transcribeAudio s u.file u.transcribeReply).2.1 = { s with spinner := "none" } := by
  unfold transcribeAudio
  cases fetchField "transcription" u.transcribeReply <;> rfl

theorem generateNotes_fst (t : JSVal) (u : Upload) :
    (generateNotes t u.notesReply).1 = notesOf u := by
  unfold generateNotes notesOf
  cases fetchField "notes" u.notesReply <;> rfl

theorem generateNotes_events (t : JSVal) (u : Upload) :
    remoteCalls (generateNotes t u.notesReply).2 = [Event.notesCall t u.notesReply] := by
  unfold generateNotes
  cases fetchField "notes" u.notesReply <;> rfl

theorem displayNotes_eq (marked : String → String) (s : State) (v : JSVal) :
    displayNotes marked s v
      = if v.isString then some { s with generatedNotes := s.generatedNotes ++ blockOf marked v }
        else none := by
  cases v <;> rfl

theorem loopBody_dup (marked : String → String) (s : State) (u : Upload)
    (h : u.file.name ∈ s.uploadedFiles) :
    loopBody marked s u
      = ⟨s, [Event.alert (u.file.name ++ " already processed.")], Completion.normal⟩ := by
  simp [loopBody, h]

theorem loopBody_oversized (marked : String → String) (s : State) (u : Upload)
    (h : u.file.name ∉ s.uploadedFiles) (hbig : exceedsSizeLimit u.file = true) :
    loopBody marked s u
      = ⟨{ s with uploadedFiles := s.uploadedFiles ++ [u.file.name] },
          [Event.alert (u.file.name ++ " exceeds the size limit.")], Completion.normal⟩ := by
  simp [loopBody, h, hbig, setAdd_of_not_mem]

/-- The loop body written out with the values the two remote calls return. -/
theorem loopBody_pipeline (marked : String → String) (s : State) (u : Upload)
    (h : u.file.name ∉ s.uploadedFiles) (hsmall : exceedsSizeLimit u.file = false) :
    loopBody marked s u
      = if (transcriptOf u).truthy then
          if (notesOf u).isString then
            ⟨{ (transcribeAudio (displayFileMessage
                  { s with uploadedFiles := s.uploadedFiles ++ [u.file.name] } u.file)
                  u.file u.transcribeReply).2.1 with
                generatedNotes := s.generatedNotes ++ blockOf marked (notesOf u) },
              (transcribeAudio (displayFileMessage
                  { s with uploadedFiles := s.uploadedFiles ++ [u.file.name] } u.file)
                  u.file u.transcribeReply).2.2
                ++ (generateNotes (transcriptOf u) u.notesReply).2, Completion.normal⟩
          else
            ⟨(transcribeAudio (displayFileMessage
                  { s with uploadedFiles := s.uploadedFiles ++ [u.file.name] } u.file)
                  u.file u.transcribeReply).2.1,
              (transcribeAudio (displayFileMessage
                  { s with uploadedFiles := s.uploadedFiles ++ [u.file.name] } u.file)
                  u.file u.transcribeReply).2.2
                ++ (generateNotes (transcriptOf u) u.notesReply).2, Completion.thrown⟩
        else
          ⟨(transcribeAudio (displayFileMessage
                { s with uploadedFiles := s.uploadedFiles ++ [u.file.name] } u.file)
                u.file u.transcribeReply).2.1,
            (transcribeAudio (displayFileMessage
                { s with uploadedFiles := s.uploadedFiles ++ [u.file.name] } u.file)
                u.file u.transcribeReply).2.2, Completion.normal⟩ := by
  unfold loopBody
  simp only [h, hsmall, if_false, setAdd_of_not_mem _ _ h, transcribeAudio_fst,
    generateNotes_fst, displayNotes_eq, Bool.false_eq_true]
  by_cases ht : (transcriptOf u).truthy = true
  · by_cases hn : (notesOf u).isString = true
    · simp [ht, hn, transcribeAudio_state, displayFileMessage]
    · simp [ht, hn]
  · simp [ht]

theorem loopBody_uploadedFiles (marked : String → String) (s : State) (u : Upload) :
    (loopBody marked s u).state.uploadedFiles = setAdd s.uploadedFiles u.file.name := by
  by_cases h : u.file.name ∈ s.uploadedFiles
  · simp [loopBody_dup marked s u h, setAdd, h]
  · cases hbig : exceedsSizeLimit u.file
    · rw [loopBody_pipeline marked s u h hbig, setAdd_of_not_mem _ _ h]
      split_ifs <;> simp [transcribeAudio_state, displayFileMessage]
    · simp [loopBody_oversized marked s u h hbig, setAdd_of_not_mem _ _ h]

theorem loopBody_isProcessing (marked : String → String) (s : State) (u : Upload) :
    (loopBody marked s u).state.isProcessing = s.isProcessing := by
  by_cases h : u.file.name ∈ s.uploadedFiles
  · simp [loopBody_dup marked s u h]
  · cases hbig : exceedsSizeLimit u.file
    · rw [loopBody_pipeline marked s u h hbig]
      split_ifs <;> simp [transcribeAudio_state, displayFileMessage]
    · simp [loopBody_oversized marked s u h hbig]

theorem loopBody_thrown_iff (marked : String → String) (s : State) (u : Upload) :
    (loopBody marked s u).completion = Completion.thrown
      ↔ u.file.name ∉ s.uploadedFiles ∧ pipelineThrows u := by
  unfold pipelineThrows
  by_cases h : u.file.name ∈ s.uploadedFiles
  · simp [loopBody_dup marked s u h, h]
  · by_cases hbig : exceedsSizeLimit u.file = true
    · simp [loopBody_oversized marked s u h hbig, hbig]
    · rw [Bool.not_eq_true] at hbig
      rw [loopBody_pipeline marked s u h hbig]
      split_ifs <;> simp_all

theorem loopBody_generatedNotes (marked : String → String) (s : State) (u : Upload) :
    (loopBody marked s u).state.generatedNotes
      = s.generatedNotes
        ++ (if u.file.name ∉ s.uploadedFiles ∧ completesBoth u then blockOf marked (notesOf u)
            else []) := by
  unfold completesBoth
  by_cases h : u.file.name ∈ s.uploadedFiles
  · simp [loopBody_dup marked s u h, h]
  · by_cases hbig : exceedsSizeLimit u.file = true
    · simp [loopBody_oversized marked s u h hbig, hbig]
    · rw [Bool.not_eq_true] at hbig
      rw [loopBody_pipeline marked s u h hbig]
      by_cases ht : (transcriptOf u).truthy = true
      · by_cases hn : (notesOf u).isString = true
        · simp [h, hbig, ht, hn]
        · simp [h, hbig, ht, hn, transcribeAudio_state, displayFileMessage]
      · simp [h, hbig, ht, transcribeAudio_state, displayFileMessage]

theorem loopBody_remoteCalls (marked : String → String) (s : State) (u : Upload) :
    remoteCalls (loopBody marked s u).events
      = if u.file.name ∈ s.uploadedFiles ∨ exceedsSizeLimit u.file = true then []
        else callsOf u := by
  by_cases h : u.file.name ∈ s.uploadedFiles
  · simp [loopBody_dup marked s u h, h, remoteCalls, Event.isRemoteCall]
  · by_cases hbig : exceedsSizeLimit u.file = true
    · simp [loopBody_oversized marked s u h hbig, hbig, remoteCalls, Event.isRemoteCall]
    · rw [if_neg (by simp [h, hbig])]
      rw [Bool.not_eq_true] at hbig
      rw [loopBody_pipeline marked s u h hbig]
      have e1 := transcribeAudio_events (displayFileMessage
                { s with uploadedFiles := s.uploadedFiles ++ [u.file.name] } u.file) u
      have e2 := generateNotes_events (transcriptOf u) u
      unfold remoteCalls at *
      by_cases ht : (transcriptOf u).truthy = true
      · by_cases hn : (notesOf u).isString = true
        · simp [ht, hn, callsOf, List.filter_append, e1, e2]
        · simp [ht, hn, callsOf, List.filter_append, e1, e2]
      · simp [ht, callsOf, e1]

theorem transcribeAudio_blocks (marked : String → String) (s : State) (u : Upload) :
    (transcribeAudio s u.file u.transcribeReply).2.2.flatMap (blocksOfEvent marked) = [] := by
  unfold transcribeAudio
  cases fetchField "transcription" u.transcribeReply <;> simp [blocksOfEvent]

theorem generateNotes_blocks (marked : String → String) (t : JSVal) (u : Upload) :
    (generateNotes t u.notesReply).2.flatMap (blocksOfEvent marked)
      = blockOf marked (notesOf u) := by
  unfold generateNotes notesOf
  cases h : fetchField "notes" u.notesReply <;> simp [blocksOfEvent, h]

theorem blockOf_of_not_isString (marked : String → String) (v : JSVal)
    (h : ¬ v.isString = true) : blockOf marked v = [] := by
  cases v <;> simp_all [blockOf, JSVal.isString]

theorem loopBody_blocks (marked : String → String) (s : State) (u : Upload) :
    (loopBody marked s u).state.generatedNotes
      = s.generatedNotes ++ (loopBody marked s u).events.flatMap (blocksOfEvent marked) := by
  by_cases h : u.file.name ∈ s.uploadedFiles
  · simp [loopBody_dup marked s u h, blocksOfEvent]
  · by_cases hbig : exceedsSizeLimit u.file = true
    · simp [loopBody_oversized marked s u h hbig, blocksOfEvent]
    · rw [Bool.not_eq_true] at hbig
      rw [loopBody_pipeline marked s u h hbig]
      by_cases ht : (transcriptOf u).truthy = true
      · by_cases hn : (notesOf u).isString = true
        · simp only [ht, hn, if_true, List.flatMap_append, transcribeAudio_blocks,
            generateNotes_blocks, List.nil_append]
        · simp only [ht, hn, if_true, if_false, List.flatMap_append, transcribeAudio_blocks,
            generateNotes_blocks, List.nil_append, blockOf_of_not_isString marked _ hn,
            List.append_nil, transcribeAudio_state, displayFileMessage, Bool.false_eq_true]
      · simp only [ht, if_false, transcribeAudio_blocks, List.append_nil,
          transcribeAudio_state, displayFileMessage, Bool.false_eq_true]

/-! ## The loop -/

theorem forOf_nil (marked : String → String) (s : State) :
    forOf marked s [] = ⟨s, [], Completion.normal⟩ := rfl

theorem forOf_cons_thrown (marked : String → String) (s : State) (u : Upload)
    (rest : List Upload) (h : (loopBody marked s u).completion = Completion.thrown) :
    forOf marked s (u :: rest) = loopBody marked s u := by
  simp [forOf, h]

theorem forOf_cons_normal (marked : String → String) (s : State) (u : Upload)
    (rest : List Upload) (h : (loopBody marked s u).completion = Completion.normal) :
    forOf marked s (u :: rest)
      = ⟨(forOf marked (loopBody marked s u).state rest).state,
          (loopBody marked s u).events ++ (forOf marked (loopBody marked s u).state rest).events,
          (forOf marked (loopBody marked s u).state rest).completion⟩ := by
  simp [forOf, h]

theorem completion_cases (c : Completion) : c = Completion.normal ∨ c = Completion.thrown := by
  cases c <;> simp

theorem forOf_isProcessing (marked : String → String) (s : State) (files : List Upload) :
    (forOf marked s files).state.isProcessing = s.isProcessing := by
  induction files generalizing s with
  | nil => rfl
  | cons u rest ih =>
    rcases completion_cases (loopBody marked s u).completion with h | h
    · rw [forOf_cons_normal marked s u rest h]
      simp [ih, loopBody_isProcessing]
    · rw [forOf_cons_thrown marked s u rest h, loopBody_isProcessing]

theorem forOf_uploadedFiles_mono (marked : String → String) (s : State) (files : List Upload)
    (x : String) (hx : x ∈ s.uploadedFiles) : x ∈ (forOf marked s files).state.uploadedFiles := by
  induction files generalizing s with
  | nil => exact hx
  | cons u rest ih =>
    have hx2 : x ∈ (loopBody marked s u).state.uploadedFiles := by
      rw [loopBody_uploadedFiles, mem_setAdd]; exact Or.inl hx
    rcases completion_cases (loopBody marked s u).completion with h | h
    · rw [forOf_cons_normal marked s u rest h]
      exact ih _ hx2
    · rw [forOf_cons_thrown marked s u rest h]; exact hx2

theorem forOf_append (marked : String → String) (s : State) (pre post : List Upload)
    (h : (forOf marked s pre).completion = Completion.normal) :
    forOf marked s (pre ++ post)
      = ⟨(forOf marked (forOf marked s pre).state post).state,
          (forOf marked s pre).events ++ (forOf marked (forOf marked s pre).state post).events,
          (forOf marked (forOf marked s pre).state post).completion⟩ := by
  induction pre generalizing s with
  | nil => simp [forOf_nil]
  | cons u rest ih =>
    rcases completion_cases (loopBody marked s u).completion with hu | hu
    · rw [forOf_cons_normal marked s u rest hu] at h ⊢
      rw [List.cons_append, forOf_cons_normal marked s u _ hu, ih _ h]
      simp
    · rw [forOf_cons_thrown marked s u rest hu] at h
      rw [hu] at h; cases h

theorem forOf_append_thrown (marked : String → String) (s : State) (pre post : List Upload)
    (h : (forOf marked s pre).completion = Completion.thrown) :
    forOf marked s (pre ++ post) = forOf marked s pre := by
  induction pre generalizing s with
  | nil => simp [forOf_nil] at h
  | cons u rest ih =>
    rcases completion_cases (loopBody marked s u).completion with hu | hu
    · rw [forOf_cons_normal marked s u rest hu] at h ⊢
      rw [List.cons_append, forOf_cons_normal marked s u _ hu, ih _ h]
    · rw [List.cons_append, forOf_cons_thrown marked s u _ hu, forOf_cons_thrown marked s u _ hu]

theorem forOf_uploadedFiles_of_normal (marked : String → String) (s : State)
    (files : List Upload) (h : (forOf marked s files).completion = Completion.normal)
    (u : Upload) (hu : u ∈ files) : u.file.name ∈ (forOf marked s files).state.uploadedFiles := by
  induction files generalizing s with
  | nil => simp at hu
  | cons v rest ih =>
    rcases completion_cases (loopBody marked s v).completion with hv | hv
    · rw [forOf_cons_normal marked s v rest hv] at h ⊢
      rcases List.mem_cons.1 hu with rfl | hmem
      · apply forOf_uploadedFiles_mono
        rw [loopBody_uploadedFiles, mem_setAdd]; exact Or.inr rfl
      · exact ih _ h hmem
    · rw [forOf_cons_thrown marked s v rest hv] at h
      rw [hv] at h; cases h

theorem forOf_blocks (marked : String → String) (s : State) (files : List Upload) :
    (forOf marked s files).state.generatedNotes
      = s.generatedNotes ++ (forOf marked s files).events.flatMap (blocksOfEvent marked) := by
  induction files generalizing s with
  | nil => simp [forOf_nil]
  | cons u rest ih =>
    rcases completion_cases (loopBody marked s u).completion with h | h
    · rw [forOf_cons_normal marked s u rest h]
      simp only [List.flatMap_append]
      rw [ih, loopBody_blocks, List.append_assoc]
    · rw [forOf_cons_thrown marked s u rest h, loopBody_blocks]

theorem forOf_mem_uploadedFiles (marked : String → String) (s : State) (files : List Upload)
    (h : (forOf marked s files).completion = Completion.normal) (x : String) :
    x ∈ (forOf marked s files).state.uploadedFiles
      ↔ x ∈ s.uploadedFiles ∨ ∃ v ∈ files, v.file.name = x := by
  induction files generalizing s with
  | nil => simp [forOf_nil]
  | cons u rest ih =>
    rcases completion_cases (loopBody marked s u).completion with hu | hu
    · rw [forOf_cons_normal marked s u rest hu] at h ⊢
      simp only at h ⊢
      rw [ih _ h, loopBody_uploadedFiles, mem_setAdd]
      simp only [List.mem_cons, exists_eq_or_imp]
      constructor
      · rintro ((h1 | h1) | h1)
        · exact Or.inl h1
        · exact Or.inr (Or.inl h1.symm)
        · exact Or.inr (Or.inr h1)
      · rintro (h1 | h1 | h1)
        · exact Or.inl (Or.inl h1)
        · exact Or.inl (Or.inr h1.symm)
        · exact Or.inr h1
    · rw [forOf_cons_thrown marked s u rest hu] at h
      rw [hu] at h; cases h

/-- A loop that throws does so at a first file, reached with every earlier
file done, and never looks at the files after it. -/
theorem forOf_split_of_thrown (marked : String → String) (s : State) (files : List Upload)
    (h : (forOf marked s files).completion = Completion.thrown) :
    ∃ pre u post, files = pre ++ u :: post
      ∧ (forOf marked s pre).completion = Completion.normal
      ∧ (loopBody marked (forOf marked s pre).state u).completion = Completion.thrown := by
  induction files generalizing s with
  | nil => simp [forOf_nil] at h
  | cons v rest ih =>
    rcases completion_cases (loopBody marked s v).completion with hv | hv
    · rw [forOf_cons_normal marked s v rest hv] at h
      obtain ⟨pre, u, post, e, hn, ht⟩ := ih _ h
      refine ⟨v :: pre, u, post, by simp [e], ?_, ?_⟩
      · rw [forOf_cons_normal marked s v pre hv]; exact hn
      · rw [forOf_cons_normal marked s v pre hv]; exact ht
    · exact ⟨[], v, rest, rfl, rfl, hv⟩

theorem forOf_snoc_thrown (marked : String → String) (s : State) (pre post : List Upload)
    (u : Upload) (hn : (forOf marked s pre).completion = Completion.normal)
    (ht : (loopBody marked (forOf marked s pre).state u).completion = Completion.thrown) :
    (forOf marked s (pre ++ u :: post)).completion = Completion.thrown
      ∧ forOf marked s (pre ++ u :: post) = forOf marked s (pre ++ [u]) := by
  rw [forOf_append marked s pre _ hn, forOf_append marked s pre _ hn,
    forOf_cons_thrown marked _ u post ht, forOf_cons_thrown marked _ u [] ht]
  exact ⟨ht, rfl⟩

theorem forOf_thrown_iff (marked : String → String) (s : State) (files : List Upload) :
    (forOf marked s files).completion = Completion.thrown
      ↔ ∃ pre u post, files = pre ++ u :: post ∧ u.file.name ∉ s.uploadedFiles
          ∧ (∀ v ∈ pre, v.file.name ≠ u.file.name) ∧ pipelineThrows u := by
  constructor
  · intro h
    obtain ⟨pre, u, post, e, hn, ht⟩ := forOf_split_of_thrown marked s files h
    rw [loopBody_thrown_iff, forOf_mem_uploadedFiles marked s pre hn] at ht
    refine ⟨pre, u, post, e, fun hx => ht.1 (Or.inl hx), fun v hv hvu => ht.1 (Or.inr ⟨v, hv, hvu⟩),
      ht.2⟩
  · rintro ⟨pre, u, post, e, h1, h2, h3⟩
    subst e
    rcases completion_cases (forOf marked s pre).completion with hn | ht
    · refine (forOf_snoc_thrown marked s pre post u hn ?_).1
      rw [loopBody_thrown_iff, forOf_mem_uploadedFiles marked s pre hn]
      refine ⟨?_, h3⟩
      rintro (hx | ⟨v, hv, hvu⟩)
      · exact h1 hx
      · exact h2 v hv hvu
    · rw [forOf_append_thrown marked s pre _ ht]; exact ht

theorem remoteCalls_append (a b : List Event) :
    remoteCalls (a ++ b) = remoteCalls a ++ remoteCalls b := by
  simp [remoteCalls]

/-- The remote calls of a loop are the pipelines, one after the other, of
some of the files in batch order: files that were new, with pairwise
different names, within the size limit. -/
theorem forOf_remoteCalls (marked : String → String) (s : State) (files : List Upload) :
    ∃ sent : List Upload, sent.Sublist files
      ∧ (∀ v ∈ sent, v.file.name ∉ s.uploadedFiles ∧ exceedsSizeLimit v.file = false)
      ∧ (sent.map (fun v => v.file.name)).Nodup
      ∧ remoteCalls (forOf marked s files).events = sent.flatMap callsOf := by
  induction files generalizing s with
  | nil => exact ⟨[], List.Sublist.refl _, by simp, by simp, by simp [forOf_nil, remoteCalls]⟩
  | cons u rest ih =>
    by_cases hskip : u.file.name ∈ s.uploadedFiles ∨ exceedsSizeLimit u.file = true
    · have hu : (loopBody marked s u).completion = Completion.normal := by
        rcases completion_cases (loopBody marked s u).completion with h | h
        · exact h
        · rw [loopBody_thrown_iff] at h
          rcases hskip with h1 | h1
          · exact absurd h1 h.1
          · rw [h.2.1] at h1; cases h1
      obtain ⟨sent, hsub, hnew, hnd, hcalls⟩ := ih (loopBody marked s u).state
      refine ⟨sent, hsub.cons u, ?_, hnd, ?_⟩
      · intro v hv
        refine ⟨fun hx => (hnew v hv).1 ?_, (hnew v hv).2⟩
        rw [loopBody_uploadedFiles, mem_setAdd]; exact Or.inl hx
      · rw [forOf_cons_normal marked s u rest hu]
        simp only [remoteCalls_append, hcalls, loopBody_remoteCalls, if_pos hskip, List.nil_append]
    · have hnot : u.file.name ∉ s.uploadedFiles ∧ exceedsSizeLimit u.file = false := by
        constructor
        · exact fun h => hskip (Or.inl h)
        · rw [← Bool.not_eq_true]; exact fun h => hskip (Or.inr h)
      rcases completion_cases (loopBody marked s u).completion with hu | hu
      · obtain ⟨sent, hsub, hnew, hnd, hcalls⟩ := ih (loopBody marked s u).state
        refine ⟨u :: sent, hsub.cons₂ u, ?_, ?_, ?_⟩
        · intro v hv
          rcases List.mem_cons.1 hv with rfl | hv
          · exact hnot
          · refine ⟨fun hx => (hnew v hv).1 ?_, (hnew v hv).2⟩
            rw [loopBody_uploadedFiles, mem_setAdd]; exact Or.inl hx
        · rw [List.map_cons, List.nodup_cons]
          refine ⟨?_, hnd⟩
          intro hmem
          obtain ⟨v, hv, hvu⟩ := List.mem_map.1 hmem
          apply (hnew v hv).1
          rw [loopBody_uploadedFiles, mem_setAdd]; exact Or.inr hvu
        · rw [forOf_cons_normal marked s u rest hu]
          simp only [remoteCalls_append, hcalls, loopBody_remoteCalls, if_neg hskip,
            List.flatMap_cons]
      · refine ⟨[u], ?_, ?_, by simp, ?_⟩
        · exact (List.nil_sublist rest).cons₂ u
        · intro v hv
          rw [List.mem_singleton.1 hv]; exact hnot
        · rw [forOf_cons_thrown marked s u rest hu, loopBody_remoteCalls, if_neg hskip]
          simp

theorem mem_callsOf_transcribeCall (u : Upload) (f : FileRecord) (reply : FetchResult)
    (h : Event.transcribeCall f reply ∈ callsOf u) : f = u.file := by
  unfold callsOf at h
  split_ifs at h <;> simp at h <;> exact h.1

/-- A transcribe call of a loop is for a new file within the size limit. -/
theorem forOf_transcribeCall (marked : String → String) (s : State) (files : List Upload)
    (f : FileRecord) (reply : FetchResult)
    (h : Event.transcribeCall f reply ∈ (forOf marked s files).events) :
    f.name ∉ s.uploadedFiles ∧ exceedsSizeLimit f = false ∧ ∃ u ∈ files, u.file = f := by
  obtain ⟨sent, hsub, hnew, _, hcalls⟩ := forOf_remoteCalls marked s files
  have hmem : Event.transcribeCall f reply ∈ remoteCalls (forOf marked s files).events := by
    simp [remoteCalls, h, Event.isRemoteCall]
  rw [hcalls, List.mem_flatMap] at hmem
  obtain ⟨u, hu, hf⟩ := hmem
  have e := mem_callsOf_transcribeCall u f reply hf
  subst e
  exact ⟨(hnew u hu).1, (hnew u hu).2, u, hsub.subset hu, rfl⟩

/-! ## The batch handler -/

theorem handleFiles_of_processing (marked : String → String) (s : State) (files : List Upload)
    (h : s.isProcessing = true) : handleFiles marked s files = ⟨s, [], Completion.normal⟩ := by
  simp [handleFiles, h]

theorem handleFiles_completion (marked : String → String) (s : State) (files : List Upload)
    (h : s.isProcessing = false) :
    (handleFiles marked s files).completion
      = (forOf marked { s with isProcessing := true } files).completion := by
  simp only [handleFiles, h, Bool.false_eq_true, if_false]
  split <;> simp_all

theorem handleFiles_events (marked : String → String) (s : State) (files : List Upload)
    (h : s.isProcessing = false) :
    (handleFiles marked s files).events
      = (forOf marked { s with isProcessing := true } files).events := by
  simp only [handleFiles, h, Bool.false_eq_true, if_false]
  split <;> simp_all

theorem handleFiles_uploadedFiles (marked : String → String) (s : State) (files : List Upload)
    (h : s.isProcessing = false) :
    (handleFiles marked s files).state.uploadedFiles
      = (forOf marked { s with isProcessing := true } files).state.uploadedFiles := by
  simp only [handleFiles, h, Bool.false_eq_true, if_false]
  split <;> simp_all

theorem handleFiles_generatedNotes (marked : String → String) (s : State) (files : List Upload)
    (h : s.isProcessing = false) :
    (handleFiles marked s files).state.generatedNotes
      = (forOf marked { s with isProcessing := true } files).state.generatedNotes := by
  simp only [handleFiles, h, Bool.false_eq_true, if_false]
  split <;> simp_all

theorem handleFiles_isProcessing (marked : String → String) (s : State) (files : List Upload)
    (h : s.isProcessing = false) :
    (handleFiles marked s files).state.isProcessing
      = decide ((handleFiles marked s files).completion = Completion.thrown) := by
  have hp := forOf_isProcessing marked { s with isProcessing := true } files
  simp only [handleFiles, h, Bool.false_eq_true, if_false]
  split <;> simp_all

theorem State.with_isProcessing_true (st : State) (hp : st.isProcessing = true) :
    ({ st with isProcessing := true } : State) = st := by
  cases st; simp_all

theorem handleFiles_snoc (marked : String → String) (s : State) (pre : List Upload) (u : Upload)
    (h : s.isProcessing = false)
    (hn : (handleFiles marked s pre).completion = Completion.normal) :
    handleFiles marked s (pre ++ [u])
      = ⟨if (loopBody marked { (handleFiles marked s pre).state with isProcessing := true } u).completion
            = Completion.thrown
          then (loopBody marked { (handleFiles marked s pre).state with isProcessing := true } u).state
          else { (loopBody marked { (handleFiles marked s pre).state with isProcessing := true }
                  u).state with isProcessing := false },
          (handleFiles marked s pre).events
            ++ (loopBody marked { (handleFiles marked s pre).state with isProcessing := true }
                  u).events,
          (loopBody marked { (handleFiles marked s pre).state with isProcessing := true }
                  u).completion⟩ := by
  have hn2 := hn
  rw [handleFiles_completion marked s pre h] at hn2
  have hp := forOf_isProcessing marked { s with isProcessing := true } pre
  have hst : ({ (handleFiles marked s pre).state with isProcessing := true } : State)
      = (forOf marked { s with isProcessing := true } pre).state := by
    simp only [handleFiles, h, Bool.false_eq_true, if_false, hn2]
    exact State.with_isProcessing_true _ hp
  rw [hst, handleFiles_events marked s pre h]
  simp only [handleFiles, h, Bool.false_eq_true, if_false]
  rw [forOf_append marked _ pre [u] hn2]
  rcases completion_cases
    (loopBody marked (forOf marked { s with isProcessing := true } pre).state u).completion
    with hu | hu
  · rw [forOf_cons_normal marked _ u [] hu]
    simp [forOf_nil, hu]
  · rw [forOf_cons_thrown marked _ u [] hu]
    simp [hu]

theorem transcribedNames_append (a b : List Event) :
    transcribedNames (a ++ b) = transcribedNames a ++ transcribedNames b := by
  induction a with
  | nil => rfl
  | cons e rest ih => cases e <;> simp [transcribedNames, ih]

theorem transcribedNames_remoteCalls (events : List Event) :
    transcribedNames (remoteCalls events) = transcribedNames events := by
  induction events with
  | nil => rfl
  | cons e rest ih =>
    cases e <;> simp_all [transcribedNames, remoteCalls, List.filter_cons, Event.isRemoteCall]

theorem transcribedNames_flatMap_callsOf (sent : List Upload) :
    transcribedNames (sent.flatMap callsOf) = sent.map (fun v => v.file.name) := by
  induction sent with
  | nil => rfl
  | cons u rest ih =>
    rw [List.flatMap_cons, transcribedNames_append, ih, List.map_cons]
    unfold callsOf
    split_ifs <;> simp [transcribedNames]

theorem forOf_blocks_of_normal (marked : String → String) (s : State) (files : List Upload)
    (h : (forOf marked s files).completion = Completion.normal) :
    (forOf marked s files).state.generatedNotes
      = s.generatedNotes
        ++ ((firstSubmissions s.uploadedFiles files).filter (fun u => decide (completesBoth u))).flatMap
            (fun u => blockOf marked (notesOf u)) := by
  induction files generalizing s with
  | nil => simp [forOf_nil, firstSubmissions]
  | cons u rest ih =>
    rcases completion_cases (loopBody marked s u).completion with hu | hu
    · rw [forOf_cons_normal marked s u rest hu] at h ⊢
      simp only at h ⊢
      rw [ih _ h, loopBody_generatedNotes, loopBody_uploadedFiles, firstSubmissions,
        List.append_assoc]
      congr 1
      by_cases hm : u.file.name ∈ s.uploadedFiles
      · simp [hm]
      · by_cases hc : completesBoth u
        · simp [hm, hc, List.filter_cons]
        · simp [hm, hc, List.filter_cons]
    · rw [forOf_cons_thrown marked s u rest hu] at h
      rw [hu] at h; cases h

/-! ## The properties of the batch handler -/

/-- C5: a call of `handleFiles` while `isProcessing` is true is a no-op.  The
state (the set of processed names, the flag, the acknowledgment area, the
result blocks, the spinner) is unchanged, no alert is shown and no remote
call is made, the call returns normally, and nothing of the batch is kept:
any later call behaves as if the dropped batch had never been submitted. -/
theorem handleFiles_dropped_while_processing (marked : String → String) (s : State)
    (files : List Upload) (h : s.isProcessing = true) :
    handleFiles marked s files = ⟨s, [], Completion.normal⟩
      ∧ ∀ later : List Upload,
          handleFiles marked (handleFiles marked s files).state later
            = handleFiles marked s later := by
  have e := handleFiles_of_processing marked s files h
  refine ⟨e, fun later => ?_⟩
  rw [e]

theorem handleFiles_dropped_while_processing_witness :
    midBatch.isProcessing = true
      ∧ handleFiles id midBatch [fileA, fileD] = ⟨midBatch, [], Completion.normal⟩
      ∧ ∀ later : List Upload,
          handleFiles id (handleFiles id midBatch [fileA, fileD]).state later
            = handleFiles id midBatch later :=
  ⟨by rw [midBatch, loopBody_isProcessing],
    handleFiles_dropped_while_processing id midBatch [fileA, fileD]
      (by rw [midBatch, loopBody_isProcessing])⟩

/-- C6: the set of processed names only grows.  For every state and every
call of `handleFiles`, accepted or dropped and however the remote calls end,
every name in the set before the call is in the set after it.  A file whose
name is in the set is rejected whatever its size and whatever the services
would answer: no call of `handleFiles` sends it to the transcription service,
and the loop body does nothing for it but show the duplicate warning. -/
theorem uploadedFiles_only_grows (marked : String → String) (s : State) (files : List Upload) :
    (∀ x ∈ s.uploadedFiles, x ∈ (handleFiles marked s files).state.uploadedFiles)
      ∧ (∀ (f : FileRecord) (reply : FetchResult),
          Event.transcribeCall f reply ∈ (handleFiles marked s files).events →
            f.name ∉ s.uploadedFiles)
      ∧ (∀ u : Upload, u.file.name ∈ s.uploadedFiles →
          loopBody marked s u
            = ⟨s, [Event.alert (u.file.name ++ " already processed.")], Completion.normal⟩) := by
  refine ⟨?_, ?_, fun u hu => loopBody_dup marked s u hu⟩
  · intro x hx
    cases hp : s.isProcessing
    · rw [handleFiles_uploadedFiles marked s files hp]
      exact forOf_uploadedFiles_mono marked _ files x hx
    · rw [handleFiles_of_processing marked s files hp]; exact hx
  · intro f reply hmem
    cases hp : s.isProcessing
    · rw [handleFiles_events marked s files hp] at hmem
      exact (forOf_transcribeCall marked _ files f reply hmem).1
    · rw [handleFiles_of_processing marked s files hp] at hmem
      simp at hmem

/-- C8: a new name is recorded before anything else happens to the file.
For a file whose name is not yet in the set the loop body appends the name,
whatever the size of the file, whatever the two services answer and also
when the body ends with an exception; so in an accepted batch every file
that the loop reaches has its name in the set afterwards.  For an accepted
batch of one new file of 250 MiB no remote call is made, exactly one alert
is shown, the size-limit alert, and the name is in the set afterwards. -/
theorem name_recorded_first (marked : String → String) (s : State) (u : Upload) :
    (u.file.name ∉ s.uploadedFiles →
        (loopBody marked s u).state.uploadedFiles = s.uploadedFiles ++ [u.file.name])
      ∧ (∀ pre post : List Upload, s.isProcessing = false →
          (handleFiles marked s pre).completion = Completion.normal →
            u.file.name ∈ (handleFiles marked s (pre ++ u :: post)).state.uploadedFiles)
      ∧ (s.isProcessing = false → u.file.name ∉ s.uploadedFiles →
          u.file.size = 250 * 1024 * 1024 →
            handleFiles marked s [u]
              = ⟨{ s with uploadedFiles := s.uploadedFiles ++ [u.file.name] },
                  [Event.alert (u.file.name ++ " exceeds the size limit.")],
                  Completion.normal⟩) := by
  refine ⟨fun h => ?_, fun pre post hp hn => ?_, fun hp hnew hsize => ?_⟩
  · rw [loopBody_uploadedFiles, setAdd_of_not_mem _ _ h]
  · rw [handleFiles_completion marked s pre hp] at hn
    rw [handleFiles_uploadedFiles marked s _ hp, forOf_append marked _ pre _ hn]
    have hb : u.file.name ∈ (loopBody marked
        (forOf marked { s with isProcessing := true } pre).state u).state.uploadedFiles := by
      rw [loopBody_uploadedFiles, mem_setAdd]; exact Or.inr rfl
    rcases completion_cases (loopBody marked
        (forOf marked { s with isProcessing := true } pre).state u).completion with hu | hu
    · rw [forOf_cons_normal marked _ u post hu]
      exact forOf_uploadedFiles_mono marked _ post _ hb
    · rw [forOf_cons_thrown marked _ u post hu]; exact hb
  · have hbig : exceedsSizeLimit u.file = true := by
      rw [exceedsSizeLimit_iff, hsize]; norm_num
    have hb := loopBody_oversized marked { s with isProcessing := true } u hnew hbig
    simp only [handleFiles, hp, Bool.false_eq_true, if_false]
    rw [forOf_cons_normal marked _ u [] (by rw [hb]), hb]
    cases s
    simp_all [forOf_nil]

theorem name_recorded_first_witness :
    (loopBody id freshPage fileB).state.uploadedFiles = ["fileB.wav"]
      ∧ "fileB.wav" ∈ (handleFiles id freshPage ([fileA] ++ fileB :: [fileD])).state.uploadedFiles
      ∧ handleFiles id freshPage [fileB]
          = ⟨{ freshPage with uploadedFiles := ["fileB.wav"] },
              [Event.alert "fileB.wav exceeds the size limit."], Completion.normal⟩ :=
  ⟨(name_recorded_first id freshPage fileB).1 (by simp [freshPage]),
    (name_recorded_first id freshPage fileB).2.1 [fileA] [fileD] rfl
      (by simp [handleFiles, forOf, loopBody, freshPage, fileA, exceedsSizeLimit_eq, setAdd,
            transcribeAudio, generateNotes, fetchField, okJson, JSVal.getProp, JSVal.truthy,
            displayNotes, displayFileMessage, showSpinner, hideSpinner, List.lookup]),
    (name_recorded_first id freshPage fileB).2.2 rfl (by simp [freshPage]) rfl⟩

theorem remote_calls_of_handleFiles (marked : String → String) (s : State)
    (files : List Upload) :
    ∃ sent : List Upload, sent.Sublist files
      ∧ (∀ v ∈ sent, v.file.name ∉ s.uploadedFiles ∧ exceedsSizeLimit v.file = false)
      ∧ (sent.map (fun v => v.file.name)).Nodup
      ∧ remoteCalls (handleFiles marked s files).events = sent.flatMap callsOf := by
  cases hp : s.isProcessing
  · rw [handleFiles_events marked s files hp]
    exact forOf_remoteCalls marked { s with isProcessing := true } files
  · rw [handleFiles_of_processing marked s files hp]
    exact ⟨[], List.nil_sublist files, by simp, by simp, by simp [remoteCalls]⟩

/-- C9: the remote calls of `handleFiles` are the pipelines of some of the
files of the batch, one pipeline after the other in batch order.  A pipeline
is the transcribe call of the file, directly followed by the generate-notes
call exactly when the transcript is truthy (so neither `undefined` nor
`null`), and that call carries the transcript.  The files sent were new, within the size limit and have
pairwise different names, so there is at most one transcribe call per file,
and no call of one file stands between the calls of another. -/
theorem remote_calls_in_batch_order (marked : String → String) (s : State)
    (files : List Upload) :
    ∃ sent : List Upload, sent.Sublist files
      ∧ (∀ v ∈ sent, v.file.name ∉ s.uploadedFiles ∧ exceedsSizeLimit v.file = false)
      ∧ (sent.map (fun v => v.file.name)).Nodup
      ∧ remoteCalls (handleFiles marked s files).events = sent.flatMap callsOf
      ∧ ∀ v ∈ sent, (transcriptOf v).truthy = true →
          transcriptOf v ≠ JSVal.undefined ∧ transcriptOf v ≠ JSVal.null := by
  obtain ⟨sent, h1, h2, h3, h4⟩ := remote_calls_of_handleFiles marked s files
  refine ⟨sent, h1, h2, h3, h4, fun v _ ht => ?_⟩
  constructor <;> intro e <;> rw [e] at ht <;> cases ht

/-- C10: the result of `generateNotes` goes to `displayNotes` unguarded.  For
an accepted batch `handleFiles` ends with an exception if and only if some
file of the batch is new (its name is neither in the set before the batch
nor the name of an earlier file of the batch), is within the size limit,
gets a truthy transcript, and note generation yields no string for it.  When
that happens the flag stays true, every later batch is dropped by the guard,
and the files after the first such file are not visited: the result is that
of the batch cut off after that file.  Otherwise the call returns normally,
the flag is false again and the name of every file of the batch is recorded. -/
theorem handleFiles_thrown_iff (marked : String → String) (s : State) (files : List Upload)
    (h : s.isProcessing = false) :
    ((handleFiles marked s files).completion = Completion.thrown
        ↔ ∃ pre u post, files = pre ++ u :: post ∧ u.file.name ∉ s.uploadedFiles
            ∧ (∀ v ∈ pre, v.file.name ≠ u.file.name) ∧ pipelineThrows u)
      ∧ ((handleFiles marked s files).completion = Completion.thrown →
          (handleFiles marked s files).state.isProcessing = true
            ∧ (∀ later : List Upload,
                handleFiles marked (handleFiles marked s files).state later
                  = ⟨(handleFiles marked s files).state, [], Completion.normal⟩)
            ∧ ∃ pre u post, files = pre ++ u :: post
                ∧ (handleFiles marked s pre).completion = Completion.normal
                ∧ ∀ other : List Upload,
                    handleFiles marked s (pre ++ u :: other) = handleFiles marked s (pre ++ [u]))
      ∧ ((handleFiles marked s files).completion = Completion.normal →
          (handleFiles marked s files).state.isProcessing = false
            ∧ ∀ u ∈ files, u.file.name ∈ (handleFiles marked s files).state.uploadedFiles) := by
  refine ⟨?_, fun ht => ?_, fun hn => ?_⟩
  · rw [handleFiles_completion marked s files h]
    exact forOf_thrown_iff marked { s with isProcessing := true } files
  · have hflag : (handleFiles marked s files).state.isProcessing = true := by
      rw [handleFiles_isProcessing marked s files h, ht]; rfl
    refine ⟨hflag, fun later => handleFiles_of_processing marked _ later hflag, ?_⟩
    rw [handleFiles_completion marked s files h] at ht
    obtain ⟨pre, u, post, e, hpre, hu⟩ := forOf_split_of_thrown marked _ files ht
    refine ⟨pre, u, post, e, ?_, fun other => ?_⟩
    · rw [handleFiles_completion marked s pre h]; exact hpre
    · simp only [handleFiles, h, Bool.false_eq_true, if_false]
      rw [(forOf_snoc_thrown marked _ pre other u hpre hu).2]
  · refine ⟨?_, fun u hu => ?_⟩
    · rw [handleFiles_isProcessing marked s files h, hn]; rfl
    · rw [handleFiles_completion marked s files h] at hn
      rw [handleFiles_uploadedFiles marked s files h]
      exact forOf_uploadedFiles_of_normal marked _ files hn u hu

theorem handleFiles_thrown_iff_witness :
    freshPage.isProcessing = false
      ∧ (handleFiles id freshPage [fileA, fileC, fileD]).completion = Completion.thrown
      ∧ (handleFiles id freshPage [fileA, fileC, fileD]).state.isProcessing = true :=
  have hthrows : pipelineThrows fileC := by
    simp [pipelineThrows, exceedsSizeLimit_eq, fileC, transcriptOf, notesOf, fetchField, okJson,
      http500, JSVal.getProp, JSVal.truthy, JSVal.isString, List.lookup]
  have ht : (handleFiles id freshPage [fileA, fileC, fileD]).completion = Completion.thrown :=
    (handleFiles_thrown_iff id freshPage [fileA, fileC, fileD] rfl).1.2
      ⟨[fileA], fileC, [fileD], rfl, by simp [freshPage], by simp [fileA, fileC], hthrows⟩
  ⟨rfl, ht, ((handleFiles_thrown_iff id freshPage [fileA, fileC, fileD] rfl).2.1 ht).1⟩

theorem length_blockOf (marked : String → String) (v : JSVal) :
    (blockOf marked v).length = if v.isString then 1 else 0 := by
  cases v <;> simp [blockOf, JSVal.isString]

theorem length_flatMap_blocksOfEvent (marked : String → String) (events : List Event) :
    (events.flatMap (blocksOfEvent marked)).length = (events.filter Event.yieldsNotes).length := by
  induction events with
  | nil => rfl
  | cons e rest ih =>
    rw [List.flatMap_cons, List.length_append, ih, List.filter_cons]
    cases e with
    | notesCall t reply =>
      simp only [blocksOfEvent, Event.yieldsNotes, length_blockOf]
      split_ifs <;> simp [Nat.add_comm]
    | _ => simp [blocksOfEvent, Event.yieldsNotes]

theorem length_flatMap_blockOf (marked : String → String) (files : List Upload) :
    ((files.filter (fun u => decide (completesBoth u))).flatMap
        (fun u => blockOf marked (notesOf u))).length
      = (files.filter (fun u => decide (completesBoth u))).length := by
  induction files with
  | nil => rfl
  | cons u rest ih =>
    rw [List.filter_cons]
    by_cases hc : completesBoth u
    · have hs : (notesOf u).isString = true := hc.2.2
      simp only [hc, decide_True, if_true, List.flatMap_cons, List.length_append, ih,
        List.length_cons, length_blockOf, hs]
      omega
    · simp only [hc, decide_False, Bool.false_eq_true, if_false, ih]

theorem forOf_blocks_of_thrown (marked : String → String) (s : State) (files : List Upload)
    (h : (forOf marked s files).completion = Completion.thrown) :
    ∃ pre u post, files = pre ++ u :: post
      ∧ (forOf marked s pre).completion = Completion.normal
      ∧ pipelineThrows u
      ∧ (forOf marked s files).state.generatedNotes
          = (forOf marked s pre).state.generatedNotes := by
  obtain ⟨pre, u, post, e, hn, hu⟩ := forOf_split_of_thrown marked s files h
  refine ⟨pre, u, post, e, hn, ((loopBody_thrown_iff marked _ u).1 hu).2, ?_⟩
  have hthrows := ((loopBody_thrown_iff marked _ u).1 hu).2
  have hnot : ¬ (u.file.name ∉ (forOf marked s pre).state.uploadedFiles ∧ completesBoth u) := by
    rintro ⟨_, hc⟩
    have h1 : (notesOf u).isString = true := hc.2.2
    rw [hthrows.2.2] at h1
    cases h1
  rw [e, forOf_append marked s pre _ hn, forOf_cons_thrown marked _ u post hu,
    loopBody_generatedNotes, if_neg hnot, List.append_nil]

/-- C7: `handleFiles` only appends to the notes container, and for an
accepted batch it appends one block per pipeline that completes both remote
calls with a result and no other block.  The blocks appended are as many as
the generate-notes calls of the run that yielded a notes string (such a call
is only made after the transcribe call of the same file yielded a transcript).
When the loop runs to its end they are as many as the files of the batch
that were new, within the size limit and completed both calls; when an
exception ends the loop at a file, which itself gets no block, they are as
many as such files before it.  One loop body appends exactly one block for
such a file and none for a file that is a duplicate, is oversized or fails
either call. -/
theorem one_block_per_completed_pipeline (marked : String → String) (s : State)
    (files : List Upload) (h : s.isProcessing = false) :
    (∃ added : List Block,
        (handleFiles marked s files).state.generatedNotes = s.generatedNotes ++ added
          ∧ added.length
              = ((handleFiles marked s files).events.filter Event.yieldsNotes).length
          ∧ ((handleFiles marked s files).completion = Completion.normal →
              added.length
                = ((firstSubmissions s.uploadedFiles files).filter
                    (fun u => decide (completesBoth u))).length)
          ∧ ((handleFiles marked s files).completion = Completion.thrown →
              ∃ pre u post, files = pre ++ u :: post
                ∧ (handleFiles marked s pre).completion = Completion.normal
                ∧ pipelineThrows u
                ∧ added.length
                    = ((firstSubmissions s.uploadedFiles pre).filter
                        (fun u => decide (completesBoth u))).length))
      ∧ ∀ (t : State) (u : Upload), ∃ block : List Block,
          (loopBody marked t u).state.generatedNotes = t.generatedNotes ++ block
            ∧ block.length = if u.file.name ∉ t.uploadedFiles ∧ completesBoth u then 1 else 0 := by
  constructor
  · have e1 := forOf_blocks marked { s with isProcessing := true } files
    refine ⟨(handleFiles marked s files).events.flatMap (blocksOfEvent marked), ?_, ?_, ?_, ?_⟩
    · rw [handleFiles_generatedNotes marked s files h, handleFiles_events marked s files h]
      exact e1
    · exact length_flatMap_blocksOfEvent marked _
    · intro hn
      rw [handleFiles_completion marked s files h] at hn
      have e2 := forOf_blocks_of_normal marked { s with isProcessing := true } files hn
      rw [e1] at e2
      have e3 := List.append_cancel_left e2
      rw [handleFiles_events marked s files h, e3]
      exact length_flatMap_blockOf marked _
    · intro ht
      rw [handleFiles_completion marked s files h] at ht
      obtain ⟨pre, u, post, e, hn, hthrows, hblocks⟩ :=
        forOf_blocks_of_thrown marked { s with isProcessing := true } files ht
      refine ⟨pre, u, post, e, ?_, hthrows, ?_⟩
      · rw [handleFiles_completion marked s pre h]; exact hn
      · have e2 := forOf_blocks_of_normal marked { s with isProcessing := true } pre hn
        rw [← hblocks, e1] at e2
        have e3 := List.append_cancel_left e2
        rw [handleFiles_events marked s files h, e3]
        exact length_flatMap_blockOf marked _
  · intro t u
    refine ⟨_, loopBody_generatedNotes marked t u, ?_⟩
    by_cases hc : u.file.name ∉ t.uploadedFiles ∧ completesBoth u
    · have hs : (notesOf u).isString = true := hc.2.2.2
      rw [if_pos hc, if_pos hc, length_blockOf, if_pos hs]
    · rw [if_neg hc, if_neg hc]; rfl

theorem one_block_per_completed_pipeline_witness :
    freshPage.isProcessing = false
      ∧ ∃ added : List Block,
          (handleFiles id freshPage [fileA, fileB, fileD, fileA]).state.generatedNotes
            = freshPage.generatedNotes ++ added
          ∧ added.length
              = ((handleFiles id freshPage [fileA, fileB, fileD, fileA]).events.filter
                  Event.yieldsNotes).length :=
  have t := (one_block_per_completed_pipeline id freshPage [fileA, fileB, fileD, fileA] rfl).1
  ⟨rfl, t.choose, t.choose_spec.1, t.choose_spec.2.1⟩

theorem with_isProcessing_false_of_true (st : State) (hp : st.isProcessing = false) :
    ({ ({ st with isProcessing := true } : State) with isProcessing := false } : State) = st := by
  cases st; simp_all

theorem handleFiles_mem_uploadedFiles (marked : String → String) (s : State)
    (files : List Upload) (h : s.isProcessing = false)
    (hn : (handleFiles marked s files).completion = Completion.normal) (x : String) :
    x ∈ (handleFiles marked s files).state.uploadedFiles
      ↔ x ∈ s.uploadedFiles ∨ ∃ v ∈ files, v.file.name = x := by
  rw [handleFiles_completion marked s files h] at hn
  rw [handleFiles_uploadedFiles marked s files h,
    forOf_mem_uploadedFiles marked _ files hn]

/-- C1, at the failing input: the batch `[fileC, fileA]` on a fresh page,
where `fileC` is transcribed as "hello" and note generation answers with
HTTP 500.  `handleFiles` ends with an exception after `fileC`: the flag is
still set, `fileA` is neither recorded nor sent to the transcription
service, and no alert is shown for it. -/
theorem batch_cut_short_by_failed_notes :
    handleFiles id freshPage [fileC, fileA]
      = ⟨{ isProcessing := true, uploadedFiles := ["fileC.mp3"],
            chatWindow := "<p>fileC.mp3 (1.00 KB) uploaded.</p>", generatedNotes := [],
            spinner := "none" },
          [Event.transcribeCall fileC.file fileC.transcribeReply,
            Event.notesCall (JSVal.string "hello") http500,
            Event.consoleError "Notes Generation Error:",
            Event.alert "Error generating notes."],
          Completion.thrown⟩ := by
  simp [handleFiles, forOf, loopBody, freshPage, fileA, fileC, exceedsSizeLimit_eq, setAdd,
    transcribeAudio, generateNotes, fetchField, okJson, http500, JSVal.getProp, JSVal.truthy,
    displayNotes, displayFileMessage, showSpinner, hideSpinner, List.lookup]
  decide

/-- C2, at the failing input: the batch `[fileC]` on a fresh page, where
`fileC` is transcribed as "hello" and note generation answers with HTTP 500.
After `handleFiles` has finished the flag is still true, and the next batch
is dropped by the guard. -/
theorem flag_left_set_by_failed_notes :
    (handleFiles id freshPage [fileC]).completion = Completion.thrown
      ∧ (handleFiles id freshPage [fileC]).state.isProcessing = true
      ∧ handleFiles id (handleFiles id freshPage [fileC]).state [fileA]
          = ⟨(handleFiles id freshPage [fileC]).state, [], Completion.normal⟩ := by
  have e : handleFiles id freshPage [fileC]
      = ⟨{ isProcessing := true, uploadedFiles := ["fileC.mp3"],
            chatWindow := "<p>fileC.mp3 (1.00 KB) uploaded.</p>", generatedNotes := [],
            spinner := "none" },
          [Event.transcribeCall fileC.file fileC.transcribeReply,
            Event.notesCall (JSVal.string "hello") http500,
            Event.consoleError "Notes Generation Error:",
            Event.alert "Error generating notes."],
          Completion.thrown⟩ := by
    simp [handleFiles, forOf, loopBody, freshPage, fileC, exceedsSizeLimit_eq, setAdd,
      transcribeAudio, generateNotes, fetchField, okJson, http500, JSVal.getProp, JSVal.truthy,
      displayNotes, displayFileMessage, showSpinner, hideSpinner, List.lookup]
    decide
  rw [e]
  exact ⟨rfl, rfl, rfl⟩

/-- C3, as stated, fails: while the batch `[fileA, fileD]` is being
processed, with `fileA` done and its name recorded, `fileA` is submitted
again in a batch of its own.  The guard drops that batch: the second
submission yields no duplicate warning, and no event at all. -/
theorem resubmission_while_processing_not_warned :
    midBatch.isProcessing = true
      ∧ fileA.file.name ∈ midBatch.uploadedFiles
      ∧ (handleFiles id midBatch [fileA]).events = []
      ∧ Event.alert "fileA.mp3 already processed." ∉ (handleFiles id midBatch [fileA]).events := by
  have hp : midBatch.isProcessing = true := by rw [midBatch, loopBody_isProcessing]
  have hm : fileA.file.name ∈ midBatch.uploadedFiles := by
    rw [midBatch, loopBody_uploadedFiles, mem_setAdd]; exact Or.inr rfl
  rw [handleFiles_of_processing id midBatch [fileA] hp]
  exact ⟨hp, hm, rfl, by simp⟩

/-- C3, amended: a name is recorded by the first loop body that meets it,
however that body ends.  When the loop of an accepted batch reaches a file
whose name is in the set before the batch or is the name of an earlier file
of the batch, it shows the duplicate warning and does nothing else: no
acknowledgment, no remote call, no render, and it goes on normally.  In the
events of any call of `handleFiles` the names of the files sent to the
transcription service are pairwise different and none of them was in the
set before the call, so the pipeline runs for at most the first submission
of a name. -/
theorem resubmission_rejected (marked : String → String) (s : State) (pre : List Upload)
    (u : Upload) :
    u.file.name ∈ (loopBody marked s u).state.uploadedFiles
      ∧ (s.isProcessing = false →
          (handleFiles marked s pre).completion = Completion.normal →
          (u.file.name ∈ s.uploadedFiles ∨ ∃ v ∈ pre, v.file.name = u.file.name) →
            handleFiles marked s (pre ++ [u])
              = ⟨(handleFiles marked s pre).state,
                  (handleFiles marked s pre).events
                    ++ [Event.alert (u.file.name ++ " already processed.")],
                  Completion.normal⟩)
      ∧ ∀ files : List Upload,
          (transcribedNames (handleFiles marked s files).events).Nodup
            ∧ ∀ x ∈ transcribedNames (handleFiles marked s files).events,
                x ∉ s.uploadedFiles := by
  refine ⟨?_, fun hp hn hdup => ?_, fun files => ?_⟩
  · rw [loopBody_uploadedFiles, mem_setAdd]; exact Or.inr rfl
  · have hmem : u.file.name ∈ ({ (handleFiles marked s pre).state with
        isProcessing := true } : State).uploadedFiles :=
      (handleFiles_mem_uploadedFiles marked s pre hp hn _).2 hdup
    have hflag : (handleFiles marked s pre).state.isProcessing = false := by
      rw [handleFiles_isProcessing marked s pre hp, hn]; rfl
    rw [handleFiles_snoc marked s pre u hp hn, loopBody_dup marked _ u hmem]
    simp only [if_false, with_isProcessing_false_of_true _ hflag, reduceCtorEq]
  · obtain ⟨sent, _, hnew, hnd, hcalls⟩ := remote_calls_of_handleFiles marked s files
    have e : transcribedNames (handleFiles marked s files).events
        = sent.map (fun v => v.file.name) := by
      rw [← transcribedNames_remoteCalls, hcalls, transcribedNames_flatMap_callsOf]
    rw [e]
    refine ⟨hnd, fun x hx => ?_⟩
    obtain ⟨v, hv, rfl⟩ := List.mem_map.1 hx
    exact (hnew v hv).1

theorem resubmission_rejected_witness :
    freshPage.isProcessing = false
      ∧ (handleFiles id freshPage [fileA, fileB, fileD]).completion = Completion.normal
      ∧ (∃ v ∈ [fileA, fileB, fileD], v.file.name = fileDBig.file.name)
      ∧ handleFiles id freshPage ([fileA, fileB, fileD] ++ [fileDBig])
          = ⟨(handleFiles id freshPage [fileA, fileB, fileD]).state,
              (handleFiles id freshPage [fileA, fileB, fileD]).events
                ++ [Event.alert (fileDBig.file.name ++ " already processed.")],
              Completion.normal⟩ :=
  have hn : (handleFiles id freshPage [fileA, fileB, fileD]).completion = Completion.normal := by
    simp [handleFiles, forOf, loopBody, freshPage, fileA, fileB, fileD, exceedsSizeLimit_eq,
      setAdd, transcribeAudio, generateNotes, fetchField, okJson, http500, JSVal.getProp,
      JSVal.truthy, displayNotes, displayFileMessage, showSpinner, hideSpinner, List.lookup]
  have hdup : ∃ v ∈ [fileA, fileB, fileD], v.file.name = fileDBig.file.name :=
    ⟨fileD, by simp, rfl⟩
  ⟨rfl, hn, hdup,
    (resubmission_rejected id freshPage [fileA, fileB, fileD] fileDBig).2.1 rfl hn
      (Or.inr hdup)⟩

/-- C4, as stated, fails: in the accepted batch `[fileD, fileDBig]` on a
fresh page the second file has 250 MiB and the name of the first.  It is
handed to `handleFiles` and is oversized, yet the alert shown for it is the
duplicate warning: no size-limit warning appears. -/
theorem oversized_duplicate_not_warned :
    200 * 1024 * 1024 < fileDBig.file.size
      ∧ (handleFiles id freshPage [fileD, fileDBig]).events
          = [Event.transcribeCall fileD.file http500,
              Event.consoleError "Transcription Error:",
              Event.alert "Error during transcription.",
              Event.alert "fileD.mp3 already processed."]
      ∧ Event.alert "fileD.mp3 exceeds the size limit."
          ∉ (handleFiles id freshPage [fileD, fileDBig]).events := by
  have e : (handleFiles id freshPage [fileD, fileDBig]).events
      = [Event.transcribeCall fileD.file http500,
          Event.consoleError "Transcription Error:",
          Event.alert "Error during transcription.",
          Event.alert "fileD.mp3 already processed."] := by
    simp [handleFiles, forOf, loopBody, freshPage, fileD, fileDBig, exceedsSizeLimit_eq, setAdd,
      transcribeAudio, generateNotes, fetchField, okJson, http500, JSVal.getProp, JSVal.truthy,
      displayNotes, displayFileMessage, showSpinner, hideSpinner, List.lookup]
  refine ⟨by decide, e, ?_⟩
  rw [e]
  simp

/-- C4, amended: the size test is exact, a file is oversized if and only if
it has more than 200 × 1024 × 1024 bytes, so a file of exactly 209,715,200
bytes is not.  No call of `handleFiles` sends an oversized file to the
transcription service, and the loop body of an oversized file makes no
remote call at all.  When the loop of an accepted batch reaches an oversized
file whose name is new (not in the set before the batch and not the name of
an earlier file of the batch), it records the name and shows the size-limit
warning, and nothing else. -/
theorem oversized_file_not_sent (marked : String → String) (s : State) (pre : List Upload)
    (u : Upload) :
    (exceedsSizeLimit u.file = true ↔ 200 * 1024 * 1024 < u.file.size)
      ∧ (u.file.size = 209715200 → exceedsSizeLimit u.file = false)
      ∧ (∀ (files : List Upload) (f : FileRecord) (reply : FetchResult),
          Event.transcribeCall f reply ∈ (handleFiles marked s files).events →
            f.size ≤ 200 * 1024 * 1024)
      ∧ (200 * 1024 * 1024 < u.file.size → remoteCalls (loopBody marked s u).events = [])
      ∧ (s.isProcessing = false →
          (handleFiles marked s pre).completion = Completion.normal →
          u.file.name ∉ s.uploadedFiles → (∀ v ∈ pre, v.file.name ≠ u.file.name) →
          200 * 1024 * 1024 < u.file.size →
            handleFiles marked s (pre ++ [u])
              = ⟨{ (handleFiles marked s pre).state with
                    uploadedFiles := (handleFiles marked s pre).state.uploadedFiles
                      ++ [u.file.name] },
                  (handleFiles marked s pre).events
                    ++ [Event.alert (u.file.name ++ " exceeds the size limit.")],
                  Completion.normal⟩) := by
  refine ⟨exceedsSizeLimit_iff u.file, fun h => ?_, fun files f reply hmem => ?_, fun hbig => ?_,
    fun hp hn hnew hpre hbig => ?_⟩
  · rw [exceedsSizeLimit_eq_false_iff, h]
  · cases hp : s.isProcessing
    · rw [handleFiles_events marked s files hp] at hmem
      exact (exceedsSizeLimit_eq_false_iff f).1 (forOf_transcribeCall marked _ files f reply hmem).2.1
    · rw [handleFiles_of_processing marked s files hp] at hmem
      simp at hmem
  · rw [loopBody_remoteCalls, if_pos (Or.inr ((exceedsSizeLimit_iff u.file).2 hbig))]
  · have hnot : u.file.name ∉ ({ (handleFiles marked s pre).state with
        isProcessing := true } : State).uploadedFiles := by
      intro hmem
      rcases (handleFiles_mem_uploadedFiles marked s pre hp hn _).1 hmem with h1 | ⟨v, hv, hvu⟩
      · exact hnew h1
      · exact hpre v hv hvu
    have hflag : (handleFiles marked s pre).state.isProcessing = false := by
      rw [handleFiles_isProcessing marked s pre hp, hn]; rfl
    rw [handleFiles_snoc marked s pre u hp hn,
      loopBody_oversized marked _ u hnot ((exceedsSizeLimit_iff u.file).2 hbig)]
    simp only [if_false, reduceCtorEq, hflag]

theorem oversized_file_not_sent_witness :
    freshPage.isProcessing = false
      ∧ (handleFiles id freshPage [fileA]).completion = Completion.normal
      ∧ 200 * 1024 * 1024 < fileB.file.size
      ∧ handleFiles id freshPage ([fileA] ++ [fileB])
          = ⟨{ (handleFiles id freshPage [fileA]).state with
                uploadedFiles := (handleFiles id freshPage [fileA]).state.uploadedFiles
                  ++ [fileB.file.name] },
              (handleFiles id freshPage [fileA]).events
                ++ [Event.alert (fileB.file.name ++ " exceeds the size limit.")],
              Completion.normal⟩
      ∧ exceedsSizeLimit fileE.file = false :=
  have hn : (handleFiles id freshPage [fileA]).completion = Completion.normal := by
    simp [handleFiles, forOf, loopBody, freshPage, fileA, exceedsSizeLimit_eq,
      setAdd, transcribeAudio, generateNotes, fetchField, okJson, JSVal.getProp,
      JSVal.truthy, displayNotes, displayFileMessage, showSpinner, hideSpinner, List.lookup]
  ⟨rfl, hn, by decide,
    (oversized_file_not_sent id freshPage [fileA] fileB).2.2.2.2 rfl hn (by simp [freshPage])
      (by simp [fileA, fileB]) (by decide),
    (oversized_file_not_sent id freshPage [fileA] fileE).2.1 rfl⟩

theorem uploadedFiles_only_grows_witness :
    (∀ x ∈ midBatch.uploadedFiles, x ∈ (handleFiles id midBatch [fileA, fileD]).state.uploadedFiles)
      ∧ loopBody id midBatch fileA
          = ⟨midBatch, [Event.alert (fileA.file.name ++ " already processed.")],
              Completion.normal⟩ :=
  ⟨(uploadedFiles_only_grows id midBatch [fileA, fileD]).1,
    (uploadedFiles_only_grows id midBatch [fileA, fileD]).2.2 fileA
      (by rw [midBatch, loopBody_uploadedFiles, mem_setAdd]; exact Or.inr rfl)⟩

end Notes
